import Mathlib

/-!
Verification of the differential RISC-V testbench (`src/sim/tb_top.cpp`,
`src/sim/riscv_ref.h`) against its natural-language specification.

The testbench drives a Verilated hardware model (`Vcpu_top`, external to the
repository) and a reference interpreter (declared in `riscv_ref.h`, implemented
outside the repository) in lockstep.  The embedding below translates the
testbench code faithfully:
  * byte memories and word memories are total functions `Nat → Nat` holding the
    numeric values of the C `uint8_t` / `uint32_t` cells; the loops of
    `loadProgram`, `reset`, `runTest` become structural recursions;
  * the external hardware evaluator (`rtl->eval()`) and the external reference
    stepper (`riscv_step`) are arbitrary functions universally quantified in the
    theorems, so control-flow and ordering claims hold for every behaviour of
    those black boxes;
  * the few reference-model accessors whose implementation is absent from the
    repository (`riscv_init`, `riscv_get_pc`, `riscv_get_reg`, `riscv_set_reg`)
    are modelled from the spec, as marked on their doc comments;
  * the side effects that the claims speak about (clock edges, eval calls,
    reference steps, comparisons, log lines, state dumps) are reified as an
    event trace `List Ev` returned next to the new state.
-/

/-- `MEM_SIZE` from tb_top.cpp: `4 * 1024` bytes of reference-model memory. -/
def MEM_SIZE : Nat := 4 * 1024

/-- Byte `r` (0‥3) of the 32-bit word `w`, i.e. `(w >> (8*r)) & 0xFF`. -/
def wordByte (w r : Nat) : Nat := w / 2 ^ (8 * r) % 256

/-- Net effect of the four byte stores
`ref_mem[base+0] = instr & 0xFF; … ref_mem[base+3] = (instr >> 24) & 0xFF;`
in `Testbench::loadProgram` (little-endian word store at byte address `base`). -/
def storeWordLE (mem : Nat → Nat) (base w : Nat) : Nat → Nat := fun a =>
  if a = base then w % 256
  else if a = base + 1 then w / 2 ^ 8 % 256
  else if a = base + 2 then w / 2 ^ 16 % 256
  else if a = base + 3 then w / 2 ^ 24 % 256
  else mem a

/-- The first loop of `Testbench::loadProgram`:
`for (size_t i = 0; i < program.size() && i * 4 < MEM_SIZE; i++)` storing each
word little-endian at byte address `i*4` of the reference memory. -/
def loadRefGo : List Nat → Nat → (Nat → Nat) → Nat → Nat
  | [], _, mem => mem
  | w :: ws, i, mem =>
      if i * 4 < MEM_SIZE then loadRefGo ws (i + 1) (storeWordLE mem (i * 4) w)
      else mem

/-- Effect of `Testbench::loadProgram` on the reference model's byte memory. -/
def loadProgramRefMem (program : List Nat) (mem : Nat → Nat) : Nat → Nat :=
  loadRefGo program 0 mem

/-- The second loop of `Testbench::loadProgram`:
`for (size_t i = 0; i < program.size() && i < 1024; i++)` writing each word
into the RTL instruction memory. -/
def loadImemGo : List Nat → Nat → (Nat → Nat) → Nat → Nat
  | [], _, mem => mem
  | w :: ws, i, mem =>
      if i < 1024 then loadImemGo ws (i + 1) (fun j => if j = i then w else mem j)
      else mem

/-- The third loop of `Testbench::loadProgram`:
`for (size_t i = program.size(); i < 1024; i++) imem[i] = 0x00000013;`,
written with the iteration count made explicit. -/
def fillNopsGo : Nat → Nat → (Nat → Nat) → Nat → Nat
  | 0, _, mem => mem
  | n + 1, i, mem => fillNopsGo n (i + 1) (fun j => if j = i then 0x00000013 else mem j)

/-- Effect of `Testbench::loadProgram` on the RTL instruction memory
(word store followed by NOP fill up to 1024 words). -/
def loadProgramImem (program : List Nat) (mem : Nat → Nat) : Nat → Nat :=
  fillNopsGo (1024 - program.length) program.length (loadImemGo program 0 mem)

/-- Pointwise description of the reference-memory load loop: byte address `a`
receives byte `a % 4` of word `a / 4` of the remaining program (when that word
index is in range and below the 1024-word capacity), else keeps its old value. -/
theorem loadRefGo_char (ws : List Nat) : ∀ (i : Nat) (mem : Nat → Nat) (a : Nat),
    loadRefGo ws i mem a =
      if i ≤ a / 4 ∧ a / 4 < i + ws.length ∧ a / 4 < 1024 then
        wordByte (ws.getD (a / 4 - i) 0) (a % 4)
      else mem a := by
  induction ws with
  | nil =>
      intro i mem a
      simp only [loadRefGo, List.length_nil]
      rw [if_neg (by omega)]
  | cons w ws ih =>
      intro i mem a
      simp only [loadRefGo, List.length_cons]
      by_cases hi : i * 4 < MEM_SIZE
      · have hi' : i < 1024 := by simp only [MEM_SIZE] at hi; omega
        rw [if_pos hi, ih]
        have hstore : storeWordLE mem (i * 4) w a =
            if a / 4 = i then wordByte w (a % 4) else mem a := by
          by_cases hq : a / 4 = i
          · rw [if_pos hq]
            have h4 : a % 4 = 0 ∨ a % 4 = 1 ∨ a % 4 = 2 ∨ a % 4 = 3 := by omega
            rcases h4 with h | h | h | h
            · have ha : a = i * 4 := by omega
              simp only [storeWordLE, ha, if_pos rfl, wordByte, h]
              norm_num
            · have ha : a = i * 4 + 1 := by omega
              simp only [storeWordLE, wordByte, h]
              rw [if_neg (by omega), if_pos ha]
            · have ha : a = i * 4 + 2 := by omega
              simp only [storeWordLE, wordByte, h]
              rw [if_neg (by omega), if_neg (by omega), if_pos ha]
            · have ha : a = i * 4 + 3 := by omega
              simp only [storeWordLE, wordByte, h]
              rw [if_neg (by omega), if_neg (by omega), if_neg (by omega), if_pos ha]
          · rw [if_neg hq]
            simp only [storeWordLE]
            rw [if_neg (by omega), if_neg (by omega), if_neg (by omega), if_neg (by omega)]
        by_cases hk : i + 1 ≤ a / 4 ∧ a / 4 < i + 1 + ws.length ∧ a / 4 < 1024
        · rw [if_pos hk, if_pos (by omega)]
          have hd : a / 4 - i = (a / 4 - (i + 1)) + 1 := by omega
          rw [hd, List.getD_cons_succ]
        · rw [if_neg hk, hstore]
          by_cases hq : a / 4 = i
          · rw [if_pos hq, if_pos (by omega)]
            have hd : a / 4 - i = 0 := by omega
            rw [hd, List.getD_cons_zero]
          · rw [if_neg hq, if_neg (by omega)]
      · have hi' : 1024 ≤ i := by simp only [MEM_SIZE] at hi; omega
        rw [if_neg hi, if_neg (by omega)]

/-- Pointwise description of the RTL instruction-memory load loop. -/
theorem loadImemGo_char (ws : List Nat) : ∀ (i : Nat) (mem : Nat → Nat) (j : Nat),
    loadImemGo ws i mem j =
      if i ≤ j ∧ j < i + ws.length ∧ j < 1024 then ws.getD (j - i) 0 else mem j := by
  induction ws with
  | nil =>
      intro i mem j
      simp only [loadImemGo, List.length_nil]
      rw [if_neg (by omega)]
  | cons w ws ih =>
      intro i mem j
      simp only [loadImemGo, List.length_cons]
      by_cases hi : i < 1024
      · rw [if_pos hi, ih]
        by_cases hk : i + 1 ≤ j ∧ j < i + 1 + ws.length ∧ j < 1024
        · rw [if_pos hk, if_pos (by omega)]
          have hd : j - i = (j - (i + 1)) + 1 := by omega
          rw [hd, List.getD_cons_succ]
        · rw [if_neg hk]
          by_cases hq : j = i
          · rw [if_pos hq, if_pos (by omega)]
            have hd : j - i = 0 := by omega
            rw [hd, List.getD_cons_zero]
          · rw [if_neg hq, if_neg (by omega)]
      · rw [if_neg hi, if_neg (by omega)]

/-- Pointwise description of the NOP-fill loop. -/
theorem fillNopsGo_char (n : Nat) : ∀ (i : Nat) (mem : Nat → Nat) (j : Nat),
    fillNopsGo n i mem j = if i ≤ j ∧ j < i + n then 0x00000013 else mem j := by
  induction n with
  | zero =>
      intro i mem j
      simp only [fillNopsGo]
      rw [if_neg (by omega)]
  | succ n ih =>
      intro i mem j
      simp only [fillNopsGo]
      rw [ih]
      by_cases hk : i + 1 ≤ j ∧ j < i + 1 + n
      · rw [if_pos hk, if_pos (by omega)]
      · rw [if_neg hk]
        by_cases hq : j = i
        · rw [if_pos hq, if_pos (by omega)]
        · rw [if_neg hq, if_neg (by omega)]

/-- Pointwise description of the full `loadProgram` effect on the RTL
instruction memory: program words in range, then NOP padding up to word 1024,
and untouched storage past the capacity. -/
theorem loadProgramImem_char (p : List Nat) (mem : Nat → Nat) (j : Nat) :
    loadProgramImem p mem j =
      if j < p.length ∧ j < 1024 then p.getD j 0
      else if p.length ≤ j ∧ j < 1024 then 0x00000013
      else mem j := by
  simp only [loadProgramImem]
  rw [fillNopsGo_char, loadImemGo_char]
  by_cases h1 : p.length ≤ j ∧ j < p.length + (1024 - p.length)
  · rw [if_pos h1, if_neg (by omega), if_pos (by omega)]
  · rw [if_neg h1]
    by_cases h2 : j < p.length ∧ j < 1024
    · rw [if_pos (by omega), if_pos h2]
      simp
    · rw [if_neg (by omega), if_neg h2, if_neg (by omega)]

/-- `loadProgram` leaves every reference-memory byte at or past
`4 * program.length` untouched: the first loop stops at the end of the program
and no other loop writes the reference memory. -/
theorem loadProgramRefMem_frame (p : List Nat) (mem : Nat → Nat) (a : Nat)
    (h : 4 * p.length ≤ a) : loadProgramRefMem p mem a = mem a := by
  simp only [loadProgramRefMem]
  rw [loadRefGo_char]
  rw [if_neg (by omega)]

/-- In-range bytes written by `loadProgram` into the reference memory. -/
theorem loadProgramRefMem_in (p : List Nat) (mem : Nat → Nat) (a : Nat)
    (h1 : a / 4 < p.length) (h2 : a < MEM_SIZE) :
    loadProgramRefMem p mem a = wordByte (p.getD (a / 4) 0) (a % 4) := by
  simp only [loadProgramRefMem]
  rw [loadRefGo_char]
  simp only [MEM_SIZE] at h2
  rw [if_pos (by omega), Nat.sub_zero]

/-- C1 (as stated in the claim, refuted at a concrete input): after
`loadProgram([0x00000013])` into an all-zero reference memory, the byte at
address 4 — the first byte past the one-word program, well inside the 4096-byte
capacity — is 0, not the NOP low byte 0x13: `loadProgram` never NOP-pads the
reference model's byte memory. -/
theorem loadProgram_refpad_counterexample :
    loadProgramRefMem [0x00000013] (fun _ => 0) 4 = 0 ∧ (0 : Nat) ≠ 0x13 := by
  constructor
  · rfl
  · decide

/-- C1 (amended): `loadProgram` NOP-pads only the hardware instruction store —
every word slot from the end of the program up to its full 1024-word capacity
receives 0x00000013 — while the reference model's byte memory keeps its
previous contents at every byte address at or past `4 * program.length`
(those bytes are NOPs only because the testbench constructor filled the buffer
once), so stale words of a previously loaded longer program can remain in the
reference memory. -/
theorem loadProgram_padding (p : List Nat) (imem mem : Nat → Nat) :
    (∀ j, p.length ≤ j → j < 1024 → loadProgramImem p imem j = 0x00000013) ∧
    (∀ a, 4 * p.length ≤ a → loadProgramRefMem p mem a = mem a) := by
  constructor
  · intro j h1 h2
    rw [loadProgramImem_char, if_neg (by omega), if_pos (by omega)]
  · intro a h
    exact loadProgramRefMem_frame p mem a h

/-- Witness for the amended C1: for the one-word program `[0x00000013]`,
instruction-store word 5 becomes a NOP while reference-memory byte 4 keeps its
previous value. -/
theorem loadProgram_padding_witness :
    loadProgramImem [0x00000013] (fun _ => 7) 5 = 0x00000013 ∧
    loadProgramRefMem [0x00000013] (fun _ => 9) 4 = 9 :=
  ⟨(loadProgram_padding [0x00000013] (fun _ => 7) (fun _ => 9)).1 5 (by decide) (by decide),
   (loadProgram_padding [0x00000013] (fun _ => 7) (fun _ => 9)).2 4 (by decide)⟩

/-- C7: a program longer than capacity is silently truncated — `loadProgram`
writes exactly the first 1024 words into the RTL instruction store and exactly
the first 1024 words (4096 bytes, little-endian) into the reference memory,
and leaves both targets untouched at or past the capacity boundary. -/
theorem loadProgram_truncation (p : List Nat) (imem mem : Nat → Nat)
    (h : 1024 ≤ p.length) :
    (∀ j, j < 1024 → loadProgramImem p imem j = p.getD j 0) ∧
    (∀ j, 1024 ≤ j → loadProgramImem p imem j = imem j) ∧
    (∀ a, a < MEM_SIZE → loadProgramRefMem p mem a = wordByte (p.getD (a / 4) 0) (a % 4)) ∧
    (∀ a, MEM_SIZE ≤ a → loadProgramRefMem p mem a = mem a) := by
  refine ⟨fun j hj => ?_, fun j hj => ?_, fun a ha => ?_, fun a ha => ?_⟩
  · rw [loadProgramImem_char, if_pos (by omega)]
  · rw [loadProgramImem_char, if_neg (by omega), if_neg (by omega)]
  · exact loadProgramRefMem_in p mem a
      (by simp only [MEM_SIZE] at ha; omega) ha
  · simp only [MEM_SIZE] at ha
    simp only [loadProgramRefMem]
    rw [loadRefGo_char, if_neg (by omega)]

/-- Witness for C7 at the 1025-word program `replicate 1025 7`: word 1000 of
the instruction store is written, word 1024 is not. -/
theorem loadProgram_truncation_witness :
    loadProgramImem (List.replicate 1025 7) (fun _ => 3) 1000 =
      (List.replicate 1025 7).getD 1000 0 ∧
    loadProgramImem (List.replicate 1025 7) (fun _ => 3) 1024 = 3 := by
  have h := loadProgram_truncation (List.replicate 1025 7) (fun _ => 3) (fun _ => 3)
    (by rw [List.length_replicate]; omega)
  exact ⟨h.1 1000 (by omega), h.2.1 1024 (by omega)⟩

/-- C8: each program word `w` at in-capacity word index `i` is stored into the
reference byte memory little-endian: `w & 0xFF` at address `4*i`,
`(w >> 8) & 0xFF` at `4*i+1`, `(w >> 16) & 0xFF` at `4*i+2`, and
`(w >> 24) & 0xFF` at `4*i+3`. -/
theorem loadProgram_littleEndian (p : List Nat) (mem : Nat → Nat) (i : Nat)
    (h1 : i < p.length) (h2 : i < 1024) :
    loadProgramRefMem p mem (4 * i) = p.getD i 0 % 256 ∧
    loadProgramRefMem p mem (4 * i + 1) = p.getD i 0 / 2 ^ 8 % 256 ∧
    loadProgramRefMem p mem (4 * i + 2) = p.getD i 0 / 2 ^ 16 % 256 ∧
    loadProgramRefMem p mem (4 * i + 3) = p.getD i 0 / 2 ^ 24 % 256 := by
  have e0 : (4 * i) / 4 = i := by omega
  have e1 : (4 * i + 1) / 4 = i := by omega
  have e2 : (4 * i + 2) / 4 = i := by omega
  have e3 : (4 * i + 3) / 4 = i := by omega
  refine ⟨?_, ?_, ?_, ?_⟩
  · rw [loadProgramRefMem_in p mem (4 * i) (by omega) (by simp only [MEM_SIZE]; omega)]
    simp only [wordByte, e0]
    have : (4 * i) % 4 = 0 := by omega
    rw [this]
    norm_num
  · rw [loadProgramRefMem_in p mem (4 * i + 1) (by omega) (by simp only [MEM_SIZE]; omega)]
    simp only [wordByte, e1]
    have : (4 * i + 1) % 4 = 1 := by omega
    rw [this]
  · rw [loadProgramRefMem_in p mem (4 * i + 2) (by omega) (by simp only [MEM_SIZE]; omega)]
    simp only [wordByte, e2]
    have : (4 * i + 2) % 4 = 2 := by omega
    rw [this]
  · rw [loadProgramRefMem_in p mem (4 * i + 3) (by omega) (by simp only [MEM_SIZE]; omega)]
    simp only [wordByte, e3]
    have : (4 * i + 3) % 4 = 3 := by omega
    rw [this]

/-- Architectural state of the reference model (`RiscvCpu` in riscv_ref.h),
without the memory pointer: the byte buffer it aliases (`ref_mem`) is kept in
the testbench state, mirroring the shared-buffer layout of the C code. -/
structure RiscvCpu where
  pc : Nat
  regs : Nat → Nat
  halted : Bool

/-- The introspectable internal storage of the Verilated hardware model:
`cpu_top__DOT__pc`, `...regfile__DOT__registers` (32 words),
`...dmem__DOT__mem` (1024 words), `...imem__DOT__mem` (1024 words). -/
structure RtlInternals where
  pc : Nat
  regs : Nat → Nat
  dmem : Nat → Nat
  imem : Nat → Nat

/-- The combinational/sequential behaviour of the external hardware model:
one `rtl->eval()` maps the current `clk` input, `rst` input and internal
storage to new internal storage.  The hardware design is outside the
repository, so the theorems quantify over this function. -/
abbrev RtlEval : Type := Nat → Nat → RtlInternals → RtlInternals

/-- The external reference stepper `riscv_step` (implemented outside the
repository): one instruction step maps the CPU state and the shared byte
memory to their successors.  The theorems quantify over this function. -/
abbrev RefStep : Type := RiscvCpu → (Nat → Nat) → RiscvCpu × (Nat → Nat)

/-- Modelled from the spec: `riscv_init` is implemented in the reference model
outside the repository; per §4.1 `initialize` "resets ArchitecturalState to
zero and binds the memory buffer", so PC = 0, all registers = 0, halted =
false, with the byte buffer (held by the testbench) untouched. -/
def riscv_init : RiscvCpu := { pc := 0, regs := fun _ => 0, halted := false }

/-- Modelled from the spec: `riscv_get_pc` returns the current program
counter (§4.1 `getPC`). -/
def riscv_get_pc (cpu : RiscvCpu) : Nat := cpu.pc

/-- Modelled from the spec: `riscv_get_reg` with "register 0 reads always
returning zero" (§4.1), otherwise the stored register value. -/
def riscv_get_reg (cpu : RiscvCpu) (reg : Nat) : Nat :=
  if reg = 0 then 0 else cpu.regs reg

/-- Modelled from the spec: `riscv_set_reg` with "writes to register 0 being
silently discarded" (§4.1), otherwise storing the 32-bit value. -/
def riscv_set_reg (cpu : RiscvCpu) (reg value : Nat) : RiscvCpu :=
  if reg = 0 then cpu
  else { cpu with regs := fun i => if i = reg then value % 2 ^ 32 else cpu.regs i }

/-- Observable actions of the testbench, in program order: driving the `clk`
and `rst` inputs, calling `rtl->eval()` (recording the input values it sees),
force-clearing RTL storage, reinitializing the reference model, stepping the
reference model, calling `compareState`, logging a mismatch cycle index, and
printing a state dump. -/
inductive Ev where
  | setClk (v : Nat)
  | setRst (v : Nat)
  | evalHW (clk rst : Nat)
  | clearRegsEv
  | clearDmemEv
  | refInitEv
  | refStepEv
  | compareEv
  | mismatchLog (cycle : Nat)
  | stateDumpEv
deriving DecidableEq

/-- Full testbench state: RTL inputs and internals, reference CPU, the shared
reference byte memory, and the counters of the `Testbench` object. -/
structure TB where
  clk : Nat
  rst : Nat
  rtl : RtlInternals
  ref : RiscvCpu
  refMem : Nat → Nat
  simTime : Nat
  cyclesRun : Nat
  testsPassed : Nat
  testsFailed : Nat

/-- `Testbench::getRtlReg`: register 0 returns 0 without consulting the RTL
register array, any other index reads the array. -/
def getRtlReg (rtl : RtlInternals) (reg : Nat) : Nat :=
  if reg = 0 then 0 else rtl.regs reg

/-- `Testbench::getRtlPc`: reads `cpu_top__DOT__pc`. -/
def getRtlPc (rtl : RtlInternals) : Nat := rtl.pc

/-- `Testbench::compareState`: `match` starts true, is cleared if the PCs
differ, then cleared on every differing register index 1‥31; the returned
value is the conjunction of all those comparisons. -/
def compareState (rtl : RtlInternals) (ref : RiscvCpu) : Bool :=
  decide (getRtlPc rtl = riscv_get_pc ref) &&
    (List.range' 1 31).all fun i => decide (getRtlReg rtl i = riscv_get_reg ref i)

/-- The event trace of one `tick()` as a function of the `rst` value the two
`rtl->eval()` calls observe. -/
def tickTrace (rst : Nat) : List Ev :=
  [Ev.setClk 1, Ev.evalHW 1 rst, Ev.setClk 0, Ev.evalHW 0 rst]

/-- `Testbench::tick`: rising edge then `eval()` (and a trace dump bumping
`sim_time`; the trace file is opened in `main`), falling edge then `eval()`
and another dump, then `cycles_run++`. -/
def tick (ev : RtlEval) (s : TB) : TB × List Ev :=
  ({ s with
      clk := 0,
      rtl := ev 0 s.rst (ev 1 s.rst s.rtl),
      simTime := s.simTime + 2,
      cyclesRun := s.cyclesRun + 1 },
   tickTrace s.rst)

/-- The loop `for (int i = 0; i < 5; i++) tick();` in `Testbench::reset`. -/
def ticks (ev : RtlEval) : Nat → TB → TB × List Ev
  | 0, s => (s, [])
  | n + 1, s =>
      ((ticks ev n (tick ev s).fst).fst,
       (tick ev s).snd ++ (ticks ev n (tick ev s).fst).snd)

/-- `Testbench::reset`: assert `rst`, five `tick()`s, de-assert `rst`, clear
the 32 RTL register-file words and the 1024 RTL data-memory words by direct
poke, then `riscv_init(&ref, ref_mem, MEM_SIZE)` on the same buffer. -/
def reset (ev : RtlEval) (s : TB) : TB × List Ev :=
  ({ (ticks ev 5 { s with rst := 1 }).fst with
      rst := 0,
      rtl := { (ticks ev 5 { s with rst := 1 }).fst.rtl with
                regs := fun i => if i < 32 then 0
                  else (ticks ev 5 { s with rst := 1 }).fst.rtl.regs i,
                dmem := fun i => if i < 1024 then 0
                  else (ticks ev 5 { s with rst := 1 }).fst.rtl.dmem i },
      ref := riscv_init },
   Ev.setRst 1 :: (ticks ev 5 { s with rst := 1 }).snd ++
     [Ev.setRst 0, Ev.clearRegsEv, Ev.clearDmemEv, Ev.refInitEv])

/-- `Testbench::loadProgram` on the testbench state: writes the reference
byte memory and the RTL instruction memory. -/
def loadProgramTB (p : List Nat) (s : TB) : TB :=
  { s with
      refMem := loadProgramRefMem p s.refMem,
      rtl := { s.rtl with imem := loadProgramImem p s.rtl.imem } }

/-- `Testbench::stepAndCompare`: one `tick()` of the hardware, then exactly
one `riscv_step(&ref)` of the reference model (no comparison happens here;
`runTest` calls `compareState` afterwards). -/
def stepAndCompare (ev : RtlEval) (st : RefStep) (s : TB) : TB × List Ev :=
  ({ (tick ev s).fst with
      ref := (st (tick ev s).fst.ref (tick ev s).fst.refMem).fst,
      refMem := (st (tick ev s).fst.ref (tick ev s).fst.refMem).snd },
   (tick ev s).snd ++ [Ev.refStepEv])

/-- The testbench state after one `stepAndCompare()` call. -/
def scStep (ev : RtlEval) (st : RefStep) (s : TB) : TB := (stepAndCompare ev st s).fst

/-- The comparison loop of `Testbench::runTest`:
`for (int i = 0; i < cycles; i++) { stepAndCompare(); if (!compareState())
{ log i; printState(); all_match = false; break; } }`, with the remaining
iteration count and the loop index made explicit.  Returns the final state,
`all_match`, and the emitted events. -/
def runLoop (ev : RtlEval) (st : RefStep) : Nat → Nat → TB → TB × Bool × List Ev
  | 0, _, s => (s, true, [])
  | n + 1, i, s =>
      if compareState (scStep ev st s).rtl (scStep ev st s).ref then
        ((runLoop ev st n (i + 1) (scStep ev st s)).fst,
         (runLoop ev st n (i + 1) (scStep ev st s)).2.1,
         (stepAndCompare ev st s).snd ++ Ev.compareEv ::
           (runLoop ev st n (i + 1) (scStep ev st s)).2.2)
      else
        (scStep ev st s, false,
         (stepAndCompare ev st s).snd ++
           [Ev.compareEv, Ev.mismatchLog i, Ev.stateDumpEv])

/-- `Testbench::runTest`: `loadProgram(program); reset();`, the comparison
loop, then `tests_passed++` or `tests_failed++` according to `all_match`,
and a final unconditional `printState()`. -/
def runTest (ev : RtlEval) (st : RefStep) (p : List Nat) (cycles : Nat) (s : TB) :
    TB × List Ev :=
  (if (runLoop ev st cycles 0 (reset ev (loadProgramTB p s)).fst).2.1 then
    { (runLoop ev st cycles 0 (reset ev (loadProgramTB p s)).fst).fst with
        testsPassed :=
          (runLoop ev st cycles 0 (reset ev (loadProgramTB p s)).fst).fst.testsPassed + 1 }
  else
    { (runLoop ev st cycles 0 (reset ev (loadProgramTB p s)).fst).fst with
        testsFailed :=
          (runLoop ev st cycles 0 (reset ev (loadProgramTB p s)).fst).fst.testsFailed + 1 },
   (reset ev (loadProgramTB p s)).snd ++
     (runLoop ev st cycles 0 (reset ev (loadProgramTB p s)).fst).2.2 ++ [Ev.stateDumpEv])

/-- C2: `compareState` returns true iff the RTL PC equals the reference PC and
every register index 1‥31 matches; index 0 is skipped by the loop, and no
memory content (RTL data memory, RTL instruction memory) enters the verdict. -/
theorem compareState_spec (rtl : RtlInternals) (ref : RiscvCpu) :
    (compareState rtl ref = true ↔
      (getRtlPc rtl = riscv_get_pc ref ∧
        ∀ i, 1 ≤ i → i ≤ 31 → getRtlReg rtl i = riscv_get_reg ref i)) ∧
    (∀ dmem2 imem2 : Nat → Nat,
      compareState { rtl with dmem := dmem2, imem := imem2 } ref = compareState rtl ref) := by
  constructor
  · simp only [compareState, Bool.and_eq_true, decide_eq_true_eq, List.all_eq_true,
      List.mem_range'_1]
    constructor
    · rintro ⟨h1, h2⟩
      exact ⟨h1, fun i hi1 hi2 => h2 i ⟨hi1, by omega⟩⟩
    · rintro ⟨h1, h2⟩
      exact ⟨h1, fun i hi => h2 i hi.1 (by omega)⟩
  · intro dmem2 imem2
    rfl

/-- Witness for C2: a hardware view and a reference state that agree on PC and
registers 1‥31 compare as equal. -/
theorem compareState_spec_witness :
    compareState { pc := 0, regs := fun _ => 0, dmem := fun _ => 5, imem := fun _ => 6 }
      riscv_init = true :=
  (compareState_spec
      { pc := 0, regs := fun _ => 0, dmem := fun _ => 5, imem := fun _ => 6 }
      riscv_init).1.mpr
    ⟨rfl, fun _ _ _ => rfl⟩

/-- C9: register 0 reads as zero on both sides, for every state (so in
particular after any sequence of executed instructions): `getRtlReg 0` returns
0 without consulting the RTL register array, the reference model's
`riscv_get_reg` returns 0 at index 0, and `riscv_set_reg` silently discards
writes to index 0. -/
theorem reg0_hardwired_zero :
    (∀ rtl : RtlInternals, getRtlReg rtl 0 = 0) ∧
    (∀ (rtl : RtlInternals) (f : Nat → Nat),
      getRtlReg { rtl with regs := f } 0 = getRtlReg rtl 0) ∧
    (∀ cpu : RiscvCpu, riscv_get_reg cpu 0 = 0) ∧
    (∀ (cpu : RiscvCpu) (v : Nat), riscv_set_reg cpu 0 v = cpu) :=
  ⟨fun _ => rfl, fun _ _ => rfl, fun _ => rfl, fun _ _ => rfl⟩

theorem tick_rst (ev : RtlEval) (s : TB) : (tick ev s).fst.rst = s.rst := rfl

theorem tick_refMem (ev : RtlEval) (s : TB) : (tick ev s).fst.refMem = s.refMem := rfl

theorem tick_cyclesRun (ev : RtlEval) (s : TB) :
    (tick ev s).fst.cyclesRun = s.cyclesRun + 1 := rfl

theorem tick_passed (ev : RtlEval) (s : TB) :
    (tick ev s).fst.testsPassed = s.testsPassed := rfl

theorem tick_failed (ev : RtlEval) (s : TB) :
    (tick ev s).fst.testsFailed = s.testsFailed := rfl

theorem tick_ref (ev : RtlEval) (s : TB) : (tick ev s).fst.ref = s.ref := rfl

theorem tick_snd (ev : RtlEval) (s : TB) : (tick ev s).snd = tickTrace s.rst := rfl

/-- The reset tick loop: preserves `rst`, the reference state and memory and
the test counters, adds `n` to `cycles_run`, and emits `n` tick traces. -/
theorem ticks_fields (ev : RtlEval) : ∀ (n : Nat) (s : TB),
    (ticks ev n s).fst.rst = s.rst ∧
    (ticks ev n s).fst.refMem = s.refMem ∧
    (ticks ev n s).fst.cyclesRun = s.cyclesRun + n ∧
    (ticks ev n s).fst.testsPassed = s.testsPassed ∧
    (ticks ev n s).fst.testsFailed = s.testsFailed ∧
    (ticks ev n s).fst.ref = s.ref ∧
    (ticks ev n s).snd = (List.replicate n (tickTrace s.rst)).flatten := by
  intro n
  induction n with
  | zero => intro s; exact ⟨rfl, rfl, rfl, rfl, rfl, rfl, rfl⟩
  | succ n ih =>
      intro s
      obtain ⟨h1, h2, h3, h4, h5, h6, h7⟩ := ih (tick ev s).fst
      refine ⟨?_, ?_, ?_, ?_, ?_, ?_, ?_⟩
      · simp only [ticks]; rw [h1, tick_rst]
      · simp only [ticks]; rw [h2, tick_refMem]
      · simp only [ticks]; rw [h3, tick_cyclesRun]; omega
      · simp only [ticks]; rw [h4, tick_passed]
      · simp only [ticks]; rw [h5, tick_failed]
      · simp only [ticks]; rw [h6, tick_ref]
      · simp only [ticks]
        rw [h7, tick_rst, tick_snd, List.replicate_succ, List.flatten_cons]

/-- C4: `reset()` asserts `rst`, runs exactly 5 ticks with `rst` observed high
by both eval calls of each tick, de-asserts `rst`, zeroes all 32 RTL
register-file words and all 1024 RTL data-memory words, and reinitializes the
reference model (PC = 0, registers = 0, halted = false) over the unchanged
shared memory buffer; `cycles_run` grows by the 5 reset ticks. -/
theorem reset_spec (ev : RtlEval) (s : TB) :
    (reset ev s).snd =
      Ev.setRst 1 :: (List.replicate 5 (tickTrace 1)).flatten ++
        [Ev.setRst 0, Ev.clearRegsEv, Ev.clearDmemEv, Ev.refInitEv] ∧
    (reset ev s).fst.rst = 0 ∧
    (∀ i, i < 32 → (reset ev s).fst.rtl.regs i = 0) ∧
    (∀ i, i < 1024 → (reset ev s).fst.rtl.dmem i = 0) ∧
    (reset ev s).fst.ref.pc = 0 ∧
    (∀ i, (reset ev s).fst.ref.regs i = 0) ∧
    (reset ev s).fst.ref.halted = false ∧
    (reset ev s).fst.refMem = s.refMem ∧
    (reset ev s).fst.cyclesRun = s.cyclesRun + 5 := by
  obtain ⟨h1, h2, h3, h4, h5, h6, h7⟩ := ticks_fields ev 5 { s with rst := 1 }
  refine ⟨?_, rfl, ?_, ?_, rfl, fun i => rfl, rfl, h2, h3⟩
  · show Ev.setRst 1 :: (ticks ev 5 { s with rst := 1 }).snd ++
      [Ev.setRst 0, Ev.clearRegsEv, Ev.clearDmemEv, Ev.refInitEv] = _
    rw [h7]
  · intro i hi
    show (if i < 32 then 0
      else (ticks ev 5 { s with rst := 1 }).fst.rtl.regs i) = 0
    rw [if_pos hi]
  · intro i hi
    show (if i < 1024 then 0
      else (ticks ev 5 { s with rst := 1 }).fst.rtl.dmem i) = 0
    rw [if_pos hi]

/-- A concrete RTL internal state (all storage zero). -/
def rtl0 : RtlInternals :=
  { pc := 0, regs := fun _ => 0, dmem := fun _ => 0, imem := fun _ => 0 }

/-- A concrete hardware evaluator (identity on the internals). -/
def evId : RtlEval := fun _ _ r => r

/-- A concrete reference stepper (identity). -/
def stId : RefStep := fun c m => (c, m)

/-- The reference memory image built by the `Testbench` constructor: every
word slot holds the NOP encoding 0x00000013, stored little-endian. -/
def initRefMem : Nat → Nat := fun a => if a % 4 = 0 then 0x13 else 0

/-- The `Testbench` constructor state: fresh RTL model, zero counters,
NOP-filled reference memory, initialized reference model. -/
def tbInit (rtl : RtlInternals) : TB :=
  { clk := 0, rst := 0, rtl := rtl, ref := riscv_init, refMem := initRefMem,
    simTime := 0, cyclesRun := 0, testsPassed := 0, testsFailed := 0 }

/-- Witness for C4 at a concrete evaluator and testbench state. -/
theorem reset_spec_witness :
    (reset evId (tbInit rtl0)).fst.rtl.regs 3 = 0 ∧
    (reset evId (tbInit rtl0)).fst.rtl.dmem 1000 = 0 :=
  ⟨(reset_spec evId (tbInit rtl0)).2.2.1 3 (by decide),
   (reset_spec evId (tbInit rtl0)).2.2.2.1 1000 (by decide)⟩

/-- Verdict of the `compareState()` call of (0-based) round `k` of the
comparison loop started at state `s`: the loop's round `k` first advances the
state `k + 1` times with `stepAndCompare` and then compares. -/
def cmpAfter (ev : RtlEval) (st : RefStep) (s : TB) (k : Nat) : Bool :=
  compareState ((scStep ev st)^[k + 1] s).rtl ((scStep ev st)^[k + 1] s).ref

/-- Event block of one mismatch-free comparison round: clock high, eval, clock
low, eval (with `rst` low), one reference step, one comparison. -/
def roundTrace : List Ev := tickTrace 0 ++ [Ev.refStepEv, Ev.compareEv]

/-- Event block of one `reset()` call. -/
def resetTrace : List Ev :=
  Ev.setRst 1 :: (List.replicate 5 (tickTrace 1)).flatten ++
    [Ev.setRst 0, Ev.clearRegsEv, Ev.clearDmemEv, Ev.refInitEv]

/-- Number of reference-model steps recorded in a trace; each
`stepAndCompare` round contributes exactly one. -/
def refSteps (tr : List Ev) : Nat := tr.countP fun e => decide (e = Ev.refStepEv)

/-- The testbench state at the start of the comparison loop of `runTest`:
after `loadProgram(program); reset();`. -/
def postReset (ev : RtlEval) (p : List Nat) (s : TB) : TB :=
  (reset ev (loadProgramTB p s)).fst

theorem scStep_rst (ev : RtlEval) (st : RefStep) (s : TB) :
    (scStep ev st s).rst = s.rst := rfl

theorem scStep_passed (ev : RtlEval) (st : RefStep) (s : TB) :
    (scStep ev st s).testsPassed = s.testsPassed := rfl

theorem scStep_failed (ev : RtlEval) (st : RefStep) (s : TB) :
    (scStep ev st s).testsFailed = s.testsFailed := rfl

theorem scStep_cycles (ev : RtlEval) (st : RefStep) (s : TB) :
    (scStep ev st s).cyclesRun = s.cyclesRun + 1 := rfl

theorem sc_snd (ev : RtlEval) (st : RefStep) (s : TB) :
    (stepAndCompare ev st s).snd = tickTrace s.rst ++ [Ev.refStepEv] := rfl

/-- Iterating `stepAndCompare` preserves `rst` and the test counters and adds
one clock cycle per round. -/
theorem scStep_iter_fields (ev : RtlEval) (st : RefStep) : ∀ (r : Nat) (s : TB),
    ((scStep ev st)^[r] s).rst = s.rst ∧
    ((scStep ev st)^[r] s).testsPassed = s.testsPassed ∧
    ((scStep ev st)^[r] s).testsFailed = s.testsFailed ∧
    ((scStep ev st)^[r] s).cyclesRun = s.cyclesRun + r := by
  intro r
  induction r with
  | zero =>
      intro s
      exact ⟨rfl, rfl, rfl, rfl⟩
  | succ r ih =>
      intro s
      obtain ⟨h1, h2, h3, h4⟩ := ih (scStep ev st s)
      rw [Function.iterate_succ_apply]
      refine ⟨?_, ?_, ?_, ?_⟩
      · rw [h1, scStep_rst]
      · rw [h2, scStep_passed]
      · rw [h3, scStep_failed]
      · rw [h4, scStep_cycles]; omega

theorem cmpAfter_shift (ev : RtlEval) (st : RefStep) (s : TB) (k : Nat) :
    cmpAfter ev st (scStep ev st s) k = cmpAfter ev st s (k + 1) := by
  simp only [cmpAfter]
  rw [← Function.iterate_succ_apply]

/-- If all `n` rounds compare equal, the loop runs to completion: final state
is `n` iterated rounds, `all_match` stays true, and the trace is `n` uniform
round blocks. -/
theorem runLoop_pass (ev : RtlEval) (st : RefStep) : ∀ (n i : Nat) (s : TB), s.rst = 0 →
    (∀ k, k < n → cmpAfter ev st s k = true) →
    runLoop ev st n i s =
      ((scStep ev st)^[n] s, true, (List.replicate n roundTrace).flatten) := by
  intro n
  induction n with
  | zero =>
      intro i s h0 h
      simp [runLoop]
  | succ n ih =>
      intro i s h0 h
      have hc : compareState (scStep ev st s).rtl (scStep ev st s).ref = true := by
        have h00 := h 0 (Nat.succ_pos n)
        simpa [cmpAfter] using h00
      have hrec := ih (i + 1) (scStep ev st s)
        (by rw [scStep_rst, h0])
        (fun k hk => by rw [cmpAfter_shift]; exact h (k + 1) (by omega))
      simp only [runLoop]
      rw [if_pos hc]
      simp only [hrec]
      rw [← Function.iterate_succ_apply]
      rw [sc_snd, h0, List.replicate_succ, List.flatten_cons, roundTrace]
      simp [List.append_assoc]

/-- If round `m` is the first mismatching round (`m < n`), the loop logs the
zero-based cycle index `i + m`, dumps state, returns `all_match = false`, and
executes no round after round `m`: the final state is exactly `m + 1`
iterated rounds. -/
theorem runLoop_fail (ev : RtlEval) (st : RefStep) : ∀ (m n i : Nat) (s : TB), s.rst = 0 →
    m < n → (∀ k, k < m → cmpAfter ev st s k = true) → cmpAfter ev st s m = false →
    runLoop ev st n i s =
      ((scStep ev st)^[m + 1] s, false,
       (List.replicate (m + 1) roundTrace).flatten ++
         [Ev.mismatchLog (i + m), Ev.stateDumpEv]) := by
  intro m
  induction m with
  | zero =>
      intro n i s h0 hmn hk hm
      obtain ⟨n', rfl⟩ : ∃ n', n = n' + 1 := ⟨n - 1, by omega⟩
      have hc : compareState (scStep ev st s).rtl (scStep ev st s).ref = false := by
        simpa [cmpAfter] using hm
      simp only [runLoop]
      rw [if_neg (by simp [hc])]
      rw [sc_snd, h0]
      simp [roundTrace, scStep]
  | succ m ih =>
      intro n i s h0 hmn hk hm
      obtain ⟨n', rfl⟩ : ∃ n', n = n' + 1 := ⟨n - 1, by omega⟩
      have hc : compareState (scStep ev st s).rtl (scStep ev st s).ref = true := by
        have h00 := hk 0 (Nat.succ_pos m)
        simpa [cmpAfter] using h00
      have hrec := ih n' (i + 1) (scStep ev st s)
        (by rw [scStep_rst, h0])
        (by omega)
        (fun k hkk => by rw [cmpAfter_shift]; exact hk (k + 1) (by omega))
        (by rw [cmpAfter_shift]; exact hm)
      simp only [runLoop]
      rw [if_pos hc]
      simp only [hrec]
      rw [← Function.iterate_succ_apply]
      have harith : i + 1 + m = i + (m + 1) := by omega
      rw [sc_snd, h0, harith]
      simp [roundTrace, List.replicate_succ, List.flatten_cons, List.append_assoc]

/-- Every run of the comparison loop either passes all `n` rounds or has a
unique first mismatching round `m < n`. -/
theorem runLoop_cases (ev : RtlEval) (st : RefStep) (n : Nat) (s : TB) :
    (∀ k, k < n → cmpAfter ev st s k = true) ∨
    (∃ m, m < n ∧ (∀ k, k < m → cmpAfter ev st s k = true) ∧
      cmpAfter ev st s m = false) := by
  by_cases h : ∀ k, k < n → cmpAfter ev st s k = true
  · exact Or.inl h
  · right
    push_neg at h
    obtain ⟨k, hk, hkf⟩ := h
    have hkf' : cmpAfter ev st s k = false := by
      cases hcb : cmpAfter ev st s k
      · rfl
      · exact absurd hcb hkf
    have hex : ∃ j, cmpAfter ev st s j = false := ⟨k, hkf'⟩
    refine ⟨Nat.find hex, lt_of_le_of_lt (Nat.find_min' hex hkf') hk, ?_,
      Nat.find_spec hex⟩
    intro j hj
    have hmin := Nat.find_min hex hj
    cases hcb : cmpAfter ev st s j
    · exact absurd hcb hmin
    · rfl

theorem refSteps_append (t1 t2 : List Ev) :
    refSteps (t1 ++ t2) = refSteps t1 + refSteps t2 :=
  List.countP_append _ _ _

theorem refSteps_rounds : ∀ n : Nat, refSteps (List.replicate n roundTrace).flatten = n := by
  intro n
  induction n with
  | zero => rfl
  | succ n ih =>
      rw [List.replicate_succ, List.flatten_cons, refSteps_append, ih]
      have h1 : refSteps roundTrace = 1 := rfl
      rw [h1]
      omega

theorem reset_snd (ev : RtlEval) (s : TB) : (reset ev s).snd = resetTrace := by
  obtain ⟨h1, h2, h3, h4, h5, h6, h7⟩ := ticks_fields ev 5 { s with rst := 1 }
  show Ev.setRst 1 :: (ticks ev 5 { s with rst := 1 }).snd ++
    [Ev.setRst 0, Ev.clearRegsEv, Ev.clearDmemEv, Ev.refInitEv] = _
  rw [h7]
  rfl

/-- The loop-entry state of `runTest`: `rst` is low, the test counters are
untouched, and `cycles_run` has grown by the 5 reset ticks. -/
theorem postReset_fields (ev : RtlEval) (p : List Nat) (s : TB) :
    (postReset ev p s).rst = 0 ∧
    (postReset ev p s).testsPassed = s.testsPassed ∧
    (postReset ev p s).testsFailed = s.testsFailed ∧
    (postReset ev p s).cyclesRun = s.cyclesRun + 5 := by
  obtain ⟨h1, h2, h3, h4, h5, h6, h7⟩ :=
    ticks_fields ev 5 { loadProgramTB p s with rst := 1 }
  exact ⟨rfl, h4, h5, h3⟩

theorem runTest_unfold (ev : RtlEval) (st : RefStep) (p : List Nat) (N : Nat) (s : TB) :
    runTest ev st p N s =
      (if (runLoop ev st N 0 (postReset ev p s)).2.1 then
        { (runLoop ev st N 0 (postReset ev p s)).fst with
            testsPassed := (runLoop ev st N 0 (postReset ev p s)).fst.testsPassed + 1 }
      else
        { (runLoop ev st N 0 (postReset ev p s)).fst with
            testsFailed := (runLoop ev st N 0 (postReset ev p s)).fst.testsFailed + 1 },
       (reset ev (loadProgramTB p s)).snd ++
         (runLoop ev st N 0 (postReset ev p s)).2.2 ++ [Ev.stateDumpEv]) := rfl

/-- C3: per `runTest` call with budget `N`, (a) if every round compares equal
the passed counter is incremented, the failed counter is untouched and exactly
`N` `stepAndCompare` rounds run; (b) if round `m` is the first mismatching
round, the failed counter is incremented, the passed counter is untouched,
exactly `m + 1` rounds run (none after the mismatch), and the trace records
the zero-based cycle index `m` and a state dump; (c) unconditionally, exactly
one of the two counters is incremented. -/
theorem runTest_verdicts (ev : RtlEval) (st : RefStep) (p : List Nat) (N : Nat) (s : TB) :
    ((∀ k, k < N → cmpAfter ev st (postReset ev p s) k = true) →
      (runTest ev st p N s).fst.testsPassed = s.testsPassed + 1 ∧
      (runTest ev st p N s).fst.testsFailed = s.testsFailed ∧
      refSteps (runTest ev st p N s).snd = N) ∧
    (∀ m, m < N → (∀ k, k < m → cmpAfter ev st (postReset ev p s) k = true) →
      cmpAfter ev st (postReset ev p s) m = false →
      (runTest ev st p N s).fst.testsFailed = s.testsFailed + 1 ∧
      (runTest ev st p N s).fst.testsPassed = s.testsPassed ∧
      refSteps (runTest ev st p N s).snd = m + 1 ∧
      Ev.mismatchLog m ∈ (runTest ev st p N s).snd ∧
      Ev.stateDumpEv ∈ (runTest ev st p N s).snd) ∧
    ((runTest ev st p N s).fst.testsPassed = s.testsPassed + 1 ∧
        (runTest ev st p N s).fst.testsFailed = s.testsFailed ∨
      (runTest ev st p N s).fst.testsPassed = s.testsPassed ∧
        (runTest ev st p N s).fst.testsFailed = s.testsFailed + 1) := by
  obtain ⟨hr0, hrp, hrf, hrc⟩ := postReset_fields ev p s
  obtain ⟨hip, hiq, hir, his⟩ := scStep_iter_fields ev st N (postReset ev p s)
  have hpass : (∀ k, k < N → cmpAfter ev st (postReset ev p s) k = true) →
      (runTest ev st p N s).fst.testsPassed = s.testsPassed + 1 ∧
      (runTest ev st p N s).fst.testsFailed = s.testsFailed ∧
      refSteps (runTest ev st p N s).snd = N := by
    intro hall
    have hl := runLoop_pass ev st N 0 (postReset ev p s) hr0 hall
    rw [runTest_unfold]
    simp only [hl]
    refine ⟨?_, ?_, ?_⟩
    · show ((scStep ev st)^[N] (postReset ev p s)).testsPassed + 1 = s.testsPassed + 1
      rw [hiq, hrp]
    · show ((scStep ev st)^[N] (postReset ev p s)).testsFailed = s.testsFailed
      rw [hir, hrf]
    · rw [reset_snd, refSteps_append, refSteps_append, refSteps_rounds]
      have ha : refSteps resetTrace = 0 := rfl
      have hb : refSteps [Ev.stateDumpEv] = 0 := rfl
      rw [ha, hb]
      omega
  have hfail : ∀ m, m < N → (∀ k, k < m → cmpAfter ev st (postReset ev p s) k = true) →
      cmpAfter ev st (postReset ev p s) m = false →
      (runTest ev st p N s).fst.testsFailed = s.testsFailed + 1 ∧
      (runTest ev st p N s).fst.testsPassed = s.testsPassed ∧
      refSteps (runTest ev st p N s).snd = m + 1 ∧
      Ev.mismatchLog m ∈ (runTest ev st p N s).snd ∧
      Ev.stateDumpEv ∈ (runTest ev st p N s).snd := by
    intro m hm hks hmf
    obtain ⟨hjp, hjq, hjr, hjs⟩ := scStep_iter_fields ev st (m + 1) (postReset ev p s)
    have hl := runLoop_fail ev st m N 0 (postReset ev p s) hr0 hm hks hmf
    rw [runTest_unfold]
    simp only [hl]
    refine ⟨?_, ?_, ?_, ?_, ?_⟩
    · show ((scStep ev st)^[m + 1] (postReset ev p s)).testsFailed + 1 = s.testsFailed + 1
      rw [hjr, hrf]
    · show ((scStep ev st)^[m + 1] (postReset ev p s)).testsPassed = s.testsPassed
      rw [hjq, hrp]
    · rw [reset_snd, refSteps_append, refSteps_append, refSteps_append, refSteps_rounds]
      have ha : refSteps resetTrace = 0 := rfl
      have hb : refSteps [Ev.stateDumpEv] = 0 := rfl
      have hc : refSteps [Ev.mismatchLog (0 + m), Ev.stateDumpEv] = 0 := rfl
      rw [ha, hb, hc]
      omega
    · simp [List.mem_append]
    · simp [List.mem_append]
  refine ⟨hpass, hfail, ?_⟩
  rcases runLoop_cases ev st N (postReset ev p s) with hall | ⟨m, hm, hks, hmf⟩
  · obtain ⟨h1, h2, _⟩ := hpass hall
    exact Or.inl ⟨h1, h2⟩
  · obtain ⟨h1, h2, _, _, _⟩ := hfail m hm hks hmf
    exact Or.inr ⟨h2, h1⟩

/-- Witness for C3: with an identity hardware evaluator and identity reference
stepper started from the all-zero testbench, every round compares equal, so a
1-cycle test increments the passed counter and leaves the failed counter at
zero. -/
theorem runTest_verdicts_witness :
    (runTest evId stId [] 1 (tbInit rtl0)).fst.testsPassed = 1 ∧
    (runTest evId stId [] 1 (tbInit rtl0)).fst.testsFailed = 0 := by
  have h := (runTest_verdicts evId stId [] 1 (tbInit rtl0)).1 (by decide)
  exact ⟨h.1, h.2.1⟩

/-- C5: the event trace of every `runTest` is the reset block followed by some
number `r ≤ N` of identical round blocks, each exactly
`[setClk 1, eval, setClk 0, eval, refStep, compare]` — both half-cycle
evaluations first, then exactly one reference step, then the comparison —
followed only by the mismatch log (in the aborting case) and the final state
dumps; no round ever deviates from this order. -/
theorem lockstep_ordering (ev : RtlEval) (st : RefStep) (p : List Nat) (N : Nat) (s : TB) :
    ∃ r, r ≤ N ∧
      ((runTest ev st p N s).snd =
          resetTrace ++ (List.replicate r roundTrace).flatten ++ [Ev.stateDumpEv] ∨
        (runTest ev st p N s).snd =
          resetTrace ++ (List.replicate r roundTrace).flatten ++
            [Ev.mismatchLog (r - 1), Ev.stateDumpEv, Ev.stateDumpEv]) := by
  obtain ⟨hr0, hrp, hrf, hrc⟩ := postReset_fields ev p s
  rcases runLoop_cases ev st N (postReset ev p s) with hall | ⟨m, hm, hks, hmf⟩
  · have hl := runLoop_pass ev st N 0 (postReset ev p s) hr0 hall
    refine ⟨N, Nat.le_refl N, Or.inl ?_⟩
    rw [runTest_unfold]
    simp only [hl]
    rw [reset_snd]
  · have hl := runLoop_fail ev st m N 0 (postReset ev p s) hr0 hm hks hmf
    refine ⟨m + 1, by omega, Or.inr ?_⟩
    rw [runTest_unfold]
    simp only [hl]
    rw [reset_snd]
    have hs : m + 1 - 1 = m := by omega
    rw [hs]
    simp [List.append_assoc]

/-- C10: every `tick()` increments `cycles_run` by exactly 1, and consequently
each `runTest` call grows `cycles_run` by 5 (its reset ticks) plus the number
`r` of `stepAndCompare` rounds it actually executed (`r ≤ N`, read off the
trace as the number of reference steps). -/
theorem cyclesRun_accounting (ev : RtlEval) (st : RefStep) (p : List Nat) (N : Nat) (s : TB) :
    (∀ (e : RtlEval) (t : TB), (tick e t).fst.cyclesRun = t.cyclesRun + 1) ∧
    (∃ r, r ≤ N ∧ refSteps (runTest ev st p N s).snd = r ∧
      (runTest ev st p N s).fst.cyclesRun = s.cyclesRun + 5 + r) := by
  refine ⟨fun e t => rfl, ?_⟩
  obtain ⟨hr0, hrp, hrf, hrc⟩ := postReset_fields ev p s
  rcases runLoop_cases ev st N (postReset ev p s) with hall | ⟨m, hm, hks, hmf⟩
  · have hl := runLoop_pass ev st N 0 (postReset ev p s) hr0 hall
    obtain ⟨_, _, _, hic⟩ := scStep_iter_fields ev st N (postReset ev p s)
    refine ⟨N, Nat.le_refl N, ?_, ?_⟩
    · rw [runTest_unfold]
      simp only [hl]
      rw [reset_snd, refSteps_append, refSteps_append, refSteps_rounds]
      have ha : refSteps resetTrace = 0 := rfl
      have hb : refSteps [Ev.stateDumpEv] = 0 := rfl
      rw [ha, hb]
      omega
    · rw [runTest_unfold]
      simp only [hl]
      show ((scStep ev st)^[N] (postReset ev p s)).cyclesRun = s.cyclesRun + 5 + N
      rw [hic, hrc]
  · have hl := runLoop_fail ev st m N 0 (postReset ev p s) hr0 hm hks hmf
    obtain ⟨_, _, _, hic⟩ := scStep_iter_fields ev st (m + 1) (postReset ev p s)
    refine ⟨m + 1, by omega, ?_, ?_⟩
    · rw [runTest_unfold]
      simp only [hl]
      rw [reset_snd, refSteps_append, refSteps_append, refSteps_append, refSteps_rounds]
      have ha : refSteps resetTrace = 0 := rfl
      have hb : refSteps [Ev.stateDumpEv] = 0 := rfl
      have hc : refSteps [Ev.mismatchLog (0 + m), Ev.stateDumpEv] = 0 := rfl
      rw [ha, hb, hc]
      omega
    · rw [runTest_unfold]
      simp only [hl]
      show ((scStep ev st)^[m + 1] (postReset ev p s)).cyclesRun = s.cyclesRun + 5 + (m + 1)
      rw [hic, hrc]

/-- Test 1 of `main`: Simple Add. -/
def test_add : List Nat := [0x00500093, 0x00300113, 0x002081b3, 0x00000013]

/-- Test 2 of `main`: Subtraction. -/
def test_sub : List Nat := [0x00A00093, 0x00300113, 0x402081b3, 0x00000013]

/-- Test 3 of `main`: Logical operations. -/
def test_logic : List Nat :=
  [0x0FF00093, 0x0F000113, 0x002071b3, 0x0020E233, 0x0020C2B3, 0x00000013]

/-- Test 4 of `main`: Immediate operations. -/
def test_imm : List Nat := [0x01400093, 0x00A0F113, 0x00F0E193, 0x00000013]

/-- Test 5 of `main`: Shifts. -/
def test_shift : List Nat := [0x00800093, 0x00209113, 0x0020D193, 0x00000013]

/-- The testbench state at the end of `main`'s five `runTest` calls, starting
from the constructor state over the given fresh RTL model. -/
def mainRun (ev : RtlEval) (st : RefStep) (rtl : RtlInternals) : TB :=
  (runTest ev st test_shift 4
    (runTest ev st test_imm 4
      (runTest ev st test_logic 6
        (runTest ev st test_sub 4
          (runTest ev st test_add 4 (tbInit rtl)).fst).fst).fst).fst).fst

/-- The tail of `main`: `return tb.tests_failed == 0 ? 0 : 1` (written as an
if/else over the final failed counter). -/
def mainExitCode (ev : RtlEval) (st : RefStep) (rtl : RtlInternals) : Nat :=
  if (mainRun ev st rtl).testsFailed = 0 then 0 else 1

/-- C6: the process exit status is 0 iff the failed-tests counter is zero at
the end of the run, is non-zero iff at least one test failed, and is always
0 or 1. -/
theorem mainExit_spec (ev : RtlEval) (st : RefStep) (rtl : RtlInternals) :
    (mainExitCode ev st rtl = 0 ↔ (mainRun ev st rtl).testsFailed = 0) ∧
    (mainExitCode ev st rtl ≠ 0 ↔ 1 ≤ (mainRun ev st rtl).testsFailed) ∧
    (mainExitCode ev st rtl = 0 ∨ mainExitCode ev st rtl = 1) := by
  simp only [mainExitCode]
  by_cases h : (mainRun ev st rtl).testsFailed = 0
  · rw [if_pos h]
    refine ⟨by simp [h], ?_, Or.inl rfl⟩
    constructor
    · intro hcontra
      exact absurd rfl hcontra
    · intro hge
      omega
  · rw [if_neg h]
    refine ⟨?_, ?_, Or.inr rfl⟩
    · constructor
      · intro hcontra
        exact absurd hcontra one_ne_zero
      · intro h0
        exact absurd h0 h
    · constructor
      · intro _
        omega
      · intro _
        exact one_ne_zero

/-- Witness for C6 at a concrete evaluator, stepper and RTL state. -/
theorem mainExit_spec_witness :
    mainExitCode evId stId rtl0 = 0 ∨ mainExitCode evId stId rtl0 = 1 :=
  (mainExit_spec evId stId rtl0).2.2

/-- Witness for C8: the one-word program `[0x12345678]` puts byte 0x56
(`(w >> 8) & 0xFF`) at byte address 1. -/
theorem loadProgram_littleEndian_witness :
    loadProgramRefMem [0x12345678] (fun _ => 0) (4 * 0 + 1) =
      ([0x12345678] : List Nat).getD 0 0 / 2 ^ 8 % 256 :=
  (loadProgram_littleEndian [0x12345678] (fun _ => 0) 0 (by decide) (by decide)).2.1
